import Mathlib

/-!
Verification of the core of a peer-to-peer distributed block file store
(`block_manager.py`, `network.py`, `node.py`, `main.py`).

Modelling conventions:
* Python dicts are insertion-ordered association lists `List (κ × ν)`;
  `d.get(k)` is `alget`, `d[k] = v` is `alset` (replace the first binding in
  place, else append, matching dict update), `del d[k]` is `alerase`
  (dict keys are unique, so deleting the key removes every binding),
  `k in d` is `alContains`.
* Byte payloads are `List Nat`.  The code carries payloads as base-64 text;
  base-64 is a bijection on byte strings, so payloads are modelled as the
  underlying bytes.  The Python truthiness test `if s:` on a base-64 payload
  string is `truthyData` (the empty byte string encodes to the falsy `""`).
* `block_id = f"{file_id}_block_{num}"` is modelled as the pair
  `(file_id, num)`; the formatted string is injective in the pair for the
  ids the system builds.
* Machine-local disk directories `blocks/primary/` and `blocks/replicas/`
  are maps `(String × Nat) → Option (List Nat)`.
* `time.time()` timestamps, MD5 hashes and the `status` field are metadata
  never consulted by the verified operations and are omitted from rows.
* Persistence (`_save_block_table` / `_save_file_index`) is modelled by
  `savedTable` / `savedFileIndex` fields that are overwritten exactly when
  the code calls the save helpers.
-/

namespace DistFS

universe u v

/-- Lookup of the first binding of key `k`, i.e. Python `d.get(k)`. -/
def alget {κ : Type u} {ν : Type v} [DecidableEq κ] : List (κ × ν) → κ → Option ν
  | [], _ => none
  | (k', v) :: rest, k => if k' = k then some v else alget rest k

/-- Python `d[k] = v`: replace the first binding of `k` in place, else append
(dict update keeps the position of an existing key and appends a new one). -/
def alset {κ : Type u} {ν : Type v} [DecidableEq κ] : List (κ × ν) → κ → ν → List (κ × ν)
  | [], k, v => [(k, v)]
  | (k', v') :: rest, k, v =>
    if k' = k then (k, v) :: rest else (k', v') :: alset rest k v

/-- Python `del d[k]`: dict keys are unique, so deletion removes the key. -/
def alerase {κ : Type u} {ν : Type v} [DecidableEq κ] : List (κ × ν) → κ → List (κ × ν)
  | [], _ => []
  | (k', v) :: rest, k => if k' = k then alerase rest k else (k', v) :: alerase rest k

/-- Python `k in d`. -/
def alContains {κ : Type u} {ν : Type v} [DecidableEq κ] (l : List (κ × ν)) (k : κ) : Bool :=
  (alget l k).isSome

/-- First-present of two optional values (`a` wins when present). -/
def optFirst {ν : Type v} (a b : Option ν) : Option ν :=
  match a with
  | some v => some v
  | none => b

/-! ## Static configuration (`config.py`)

`NODES` is an insertion-ordered dict of peers; only the ordered name list
matters to the block plane.  `NODE_CAPACITY.get(node, 50)` and the node
name are carried as fields.  `BLOCK_SIZE` is 1 MiB in the deployment but
kept abstract (positive where the Python arithmetic requires it). -/

structure Config where
  /-- peer names in the insertion order of the `NODES` dict -/
  nodes : List String
  /-- `NODE_CAPACITY.get(node, 50)`, megabytes -/
  capacity : String → Int
  /-- `BLOCK_SIZE` in bytes -/
  blockSize : Nat
  /-- `NODE_NAME`, this peer -/
  nodeName : String

/-- A block produced by `split_file_into_blocks`: the dict
`{block_id, block_num, file_id, original_filename, size, hash, data}`
(the MD5 `hash` is never consulted and omitted; `block_id` is the pair
standing for `f"{file_id}_block_{block_num}"`). -/
structure BlockIn where
  blockId : String × Nat
  blockNum : Nat
  fileId : String
  originalFilename : String
  size : Nat
  data : List Nat
deriving DecidableEq, Repr

/-! ## `split_file_into_blocks` (block_manager.py 110-152)

`_generate_file_id` hashes the wall clock and is impure, so the generated
`file_id` is a parameter.  The sequential `f.read(BLOCK_SIZE)` of iteration
`block_num` returns exactly the slice
`data[block_num*BLOCK_SIZE : (block_num+1)*BLOCK_SIZE]`. -/

def splitFileIntoBlocks (cfg : Config) (data : List Nat) (originalFilename : String)
    (fileId : String) : List BlockIn :=
  -- total_blocks = (file_size + block_size - 1) // block_size, minimum 1
  let totalBlocks0 := (data.length + cfg.blockSize - 1) / cfg.blockSize
  let totalBlocks := if totalBlocks0 = 0 then 1 else totalBlocks0
  (List.range totalBlocks).map fun blockNum =>
    let blockData := (data.drop (blockNum * cfg.blockSize)).take cfg.blockSize
    { blockId := (fileId, blockNum)
      blockNum := blockNum
      fileId := fileId
      originalFilename := originalFilename
      size := blockData.length
      data := blockData }

/-! ## Placement tables (block_manager.py)

`block_table.json` = `{ "blocks": {block_id → row}, "node_usage": {peer → int} }`,
`file_index.json` = `{file_id → {original_filename, block_ids, total_blocks, created_at, size}}`.
`status` (constant `"allocated"`), `created_at` and `hash` are metadata the
verified operations never branch on and are omitted from rows. -/

/-- A row of `block_table["blocks"]`. -/
structure Row where
  blockNum : Nat
  fileId : String
  originalFilename : String
  size : Nat
  primaryNode : String
  replicaNode : String
deriving DecidableEq, Repr

structure BlockTable where
  blocks : List ((String × Nat) × Row)
  nodeUsage : List (String × Nat)
deriving DecidableEq, Repr

/-- A row of `file_index.json` (`created_at` omitted — wall clock). -/
structure FileInfo where
  originalFilename : String
  blockIds : List (String × Nat)
  totalBlocks : Nat
  size : Nat
deriving DecidableEq, Repr

/-- The block manager's mutable state.  `table`/`fileIndex` are the
in-memory dicts; `savedTable`/`savedFileIndex` model the JSON documents on
disk, overwritten exactly by `_save_block_table` / `_save_file_index`. -/
structure BMState where
  table : BlockTable
  savedTable : BlockTable
  fileIndex : List (String × FileInfo)
  savedFileIndex : List (String × FileInfo)
deriving DecidableEq, Repr

/-- One entry of the `available` list built by `get_available_nodes`. -/
structure Cand where
  node : String
  freeSpace : Int
  used : Nat
  capacity : Int
deriving DecidableEq, Repr

/-- The candidate-collecting loop of `get_available_nodes` (block_manager.py
174-189): walk `NODES` in insertion order, skip `exclude_node`, keep peers
with `free_space = capacity - used > 0`.  Usage is read through a total
function so that the same definition serves the assoc-list table (via
`.get(node, 0)`) and specification-side usage states. -/
def eligiblePeers (cfg : Config) (usage : String → Nat) (excludeNode : Option String) :
    List Cand :=
  cfg.nodes.filterMap fun n =>
    if some n = excludeNode then none
    else
      let used := usage n
      let cap := cfg.capacity n
      let freeSpace := cap - (used : Int)
      if 0 < freeSpace then some ⟨n, freeSpace, used, cap⟩ else none

/-- Stable insertion of one candidate into a descending-by-`free_space` list:
the new element goes before the first element whose key is ≤ its own, so
earlier elements win ties. -/
def insertByFreeDesc (x : Cand) : List Cand → List Cand
  | [] => [x]
  | y :: ys => if y.freeSpace ≤ x.freeSpace then x :: y :: ys else y :: insertByFreeDesc x ys

/-- Stable insertion sort; equal to Python's stable
`available.sort(key=lambda x: x["free_space"], reverse=True)`. -/
def sortByFreeDesc : List Cand → List Cand
  | [] => []
  | x :: xs => insertByFreeDesc x (sortByFreeDesc xs)

/-- `get_available_nodes` (block_manager.py 162-194): collect then sort. -/
def getAvailableNodes (cfg : Config) (usage : List (String × Nat))
    (excludeNode : Option String) : List Cand :=
  sortByFreeDesc (eligiblePeers cfg (fun n => (alget usage n).getD 0) excludeNode)

/-- Specification-side selection rule: the earliest candidate with maximal
`free_space` ("most free space, ties broken by insertion order of the peer
directory"). -/
def firstMaxFree : List Cand → Option Cand
  | [] => none
  | c :: cs =>
    match firstMaxFree cs with
    | none => some c
    | some m => if c.freeSpace < m.freeSpace then some m else some c

/-- `block_mb = max(1, (size + block_size - 1) // block_size)`
(block_manager.py 242). -/
def blockMB (cfg : Config) (size : Nat) : Nat :=
  max 1 ((size + cfg.blockSize - 1) / cfg.blockSize)

/-- `node_usage[n] = node_usage.get(n, 0) + mb` (block_manager.py 243-244). -/
def chargeUsage (usage : List (String × Nat)) (n : String) (mb : Nat) :
    List (String × Nat) :=
  alset usage n ((alget usage n).getD 0 + mb)

/-- A block as mutated by `allocate_blocks`: the input dict plus
`primary_node` / `replica_node` (and the constant `status` and the
timestamp, omitted). -/
structure AllocBlock where
  blockId : String × Nat
  blockNum : Nat
  fileId : String
  originalFilename : String
  size : Nat
  data : List Nat
  primaryNode : String
  replicaNode : String
deriving DecidableEq, Repr

/-- The block-table row written for block `b` (block_manager.py 247-258). -/
def allocRow (originalFilename : String) (b : BlockIn) (p r : String) : Row :=
  { blockNum := b.blockNum
    fileId := b.fileId
    originalFilename := originalFilename
    size := b.size
    primaryNode := p
    replicaNode := r }

/-- The block dict after `allocate_blocks` sets `primary_node` /
`replica_node` (block_manager.py 232-234). -/
def allocMark (b : BlockIn) (p r : String) : AllocBlock :=
  { blockId := b.blockId
    blockNum := b.blockNum
    fileId := b.fileId
    originalFilename := b.originalFilename
    size := b.size
    data := b.data
    primaryNode := p
    replicaNode := r }

/-- One iteration's mutation of the in-memory table: charge `block_mb` to
primary then replica and store the row (block_manager.py 238-258). -/
def allocStep (cfg : Config) (originalFilename : String) (b : BlockIn)
    (bt : BlockTable) (p r : String) : BlockTable :=
  { blocks := alset bt.blocks b.blockId (allocRow originalFilename b p r)
    nodeUsage := chargeUsage (chargeUsage bt.nodeUsage p (blockMB cfg b.size)) r
      (blockMB cfg b.size) }

/-- The per-block loop of `allocate_blocks` (block_manager.py 215-260).
An exception propagates the in-memory `block_table` as mutated so far
(`Except.error`); no save happens on that path.  `replica_candidates[0]` is
guarded by `if not replica_candidates: raise`, and `available[0]` is read
after `len(available) < 2` was ruled out, hence the `head?` matches. -/
def allocGo (cfg : Config) (originalFilename : String) :
    List BlockIn → BlockTable → Except BlockTable (List AllocBlock × BlockTable)
  | [], bt => .ok ([], bt)
  | b :: rest, bt =>
    if (getAvailableNodes cfg bt.nodeUsage none).length < 2 then .error bt
    else
      match (getAvailableNodes cfg bt.nodeUsage none).head? with
      | none => .error bt
      | some top =>
        match (getAvailableNodes cfg bt.nodeUsage (some top.node)).head? with
        | none => .error bt
        | some rc =>
          match allocGo cfg originalFilename rest
              (allocStep cfg originalFilename b bt top.node rc.node) with
          | .error btE => .error btE
          | .ok (restAlloc, btF) =>
            .ok (allocMark b top.node rc.node :: restAlloc, btF)

/-- `allocate_blocks` (block_manager.py 196-265) at the state level: on
success the loop's final table is saved (`_save_block_table`); on the raise
the in-memory table keeps the partial mutations and nothing is saved. -/
def allocateBlocks (cfg : Config) (st : BMState) (blocks : List BlockIn)
    (originalFilename : String) : Except Unit (List AllocBlock) × BMState :=
  match allocGo cfg originalFilename blocks st.table with
  | .error btE => (.error (), { st with table := btE })
  | .ok (rows, btF) => (.ok rows, { st with table := btF, savedTable := btF })

def exceptIsError {ε : Type u} {α : Type v} : Except ε α → Bool
  | .error _ => true
  | .ok _ => false

/-- Specification-side usage charge: one `mb` to the primary, then one to
the replica (sequentially, as the code writes the dict). -/
def chargeFn (u : String → Nat) (p r : String) (mb : Nat) : String → Nat :=
  fun n =>
    let u1 := fun m => if m = p then u m + mb else u m
    if n = r then u1 n + mb else u1 n

/-- Specification-side statement of the allocation rule of the spec:
for each block in order, the primary is the eligible peer (free space > 0)
with the most free space, ties to the earliest peer in the directory; the
replica is chosen the same way after excluding the primary; the ranking is
recomputed after the previous block's charges. -/
def specPlaced (cfg : Config) : List BlockIn → List AllocBlock → (String → Nat) → Bool
  | [], [], _ => true
  | b :: bs, a :: rest, u =>
    (match firstMaxFree (eligiblePeers cfg u none) with
     | none => false
     | some c => a.primaryNode == c.node)
    && (match firstMaxFree (eligiblePeers cfg u (some a.primaryNode)) with
     | none => false
     | some c => a.replicaNode == c.node)
    && (a.blockId == b.blockId && a.blockNum == b.blockNum && a.fileId == b.fileId
        && a.originalFilename == b.originalFilename && a.size == b.size
        && a.data == b.data)
    && specPlaced cfg bs rest (chargeFn u a.primaryNode a.replicaNode (blockMB cfg b.size))
  | _, _, _ => false

/-- Specification-side statement of the failure condition of the spec:
the upload fails iff some block, at its turn (i.e. after the previous
blocks' usage charges), sees fewer than two peers with free space > 0.
The inner `none` branches mirror the code's secondary guard and are
unreachable when the length test passes. -/
def specAllocFails (cfg : Config) : List BlockIn → (String → Nat) → Bool
  | [], _ => false
  | b :: bs, u =>
    if (eligiblePeers cfg u none).length < 2 then true
    else
      match firstMaxFree (eligiblePeers cfg u none) with
      | none => true
      | some p =>
        match firstMaxFree (eligiblePeers cfg u (some p.node)) with
        | none => true
        | some r => specAllocFails cfg bs (chargeFn u p.node r.node (blockMB cfg b.size))

/-! ## On-disk block store, transport handlers, reconstruction -/

/-- One peer's on-disk block store: `blocks/primary/` and `blocks/replicas/`,
each file named `<block_id>.bin`. -/
structure NodeStore where
  primaryDir : (String × Nat) → Option (List Nat)
  replicaDir : (String × Nat) → Option (List Nat)

/-- `save_block_locally` (block_manager.py 269-305): write the payload under
`primary/` or `replicas/` (base-64 decoding modelled away; the healthy disk
always succeeds). -/
def saveBlockLocally (ns : NodeStore) (blockId : String × Nat) (blockData : List Nat)
    (isReplica : Bool) : NodeStore :=
  if isReplica then
    { ns with replicaDir := fun k => if k = blockId then some blockData else ns.replicaDir k }
  else
    { ns with primaryDir := fun k => if k = blockId then some blockData else ns.primaryDir k }

/-- `get_block_locally` (block_manager.py 307-331) with `check_replica=True`:
primary dir first, then replicas; `some` even for an empty payload (the
`.bin` file exists). -/
def getBlockLocally (ns : NodeStore) (blockId : String × Nat) : Option (List Nat) :=
  match ns.primaryDir blockId with
  | some d => some d
  | none => ns.replicaDir blockId

/-- `delete_block_locally` (block_manager.py 333-349): remove the payload
from both directories. -/
def deleteBlockLocallyStore (ns : NodeStore) (blockId : String × Nat) : NodeStore :=
  { primaryDir := fun k => if k = blockId then none else ns.primaryDir k
    replicaDir := fun k => if k = blockId then none else ns.replicaDir k }

/-- Python truthiness `if s:` of an optional base-64 payload string: `None`
and the empty string (the encoding of the zero-byte payload) are falsy. -/
def truthyData : Option (List Nat) → Bool
  | some d => ! d.isEmpty
  | none => false

/-- The `get_block` message handler (network.py 342-354): serve the local
payload, but `if block_data:` treats an empty payload as missing and
replies `error`. -/
def handleGetBlock (ns : NodeStore) (blockId : String × Nat) : Option (List Nat) :=
  let blockData := getBlockLocally ns blockId
  if truthyData blockData then blockData else none

/-- `_get_block` (block_manager.py 461-492) with the remote calls
abstracted: `request node id` stands for `_request_block_from_node`
(`none` = timeout, refusal, or an `error` reply). -/
def getBlockFailover (selfName : String) (localStore : NodeStore)
    (blocks : List ((String × Nat) × Row))
    (request : String → (String × Nat) → Option (List Nat))
    (blockId : String × Nat) : Option (List Nat) :=
  let localData := getBlockLocally localStore blockId
  if truthyData localData then localData
  else
    match alget blocks blockId with
    | none => none
    | some row =>
      let fromPrimary :=
        if row.primaryNode ≠ "" ∧ row.primaryNode ≠ selfName then
          request row.primaryNode blockId
        else none
      if truthyData fromPrimary then fromPrimary
      else
        let fromReplica :=
          if row.replicaNode ≠ "" ∧ row.replicaNode ≠ selfName then
            request row.replicaNode blockId
          else none
        if truthyData fromReplica then fromReplica else none

/-- The block-fetch loop of `reconstruct_file` (block_manager.py 447-458):
every block must resolve (`if block_data is None: return None, None`);
payloads are concatenated in the recorded order. -/
def reconstructGo (selfName : String) (localStore : NodeStore)
    (blocks : List ((String × Nat) × Row))
    (request : String → (String × Nat) → Option (List Nat)) :
    List (String × Nat) → Option (List Nat)
  | [] => some []
  | blockId :: rest =>
    match getBlockFailover selfName localStore blocks request blockId with
    | none => none
    | some d =>
      match reconstructGo selfName localStore blocks request rest with
      | none => none
      | some tail => some (d ++ tail)

/-- `reconstruct_file` (block_manager.py 428-459). -/
def reconstructFile (selfName : String) (localStore : NodeStore) (st : BMState)
    (request : String → (String × Nat) → Option (List Nat)) (fileId : String) :
    Option (List Nat × String) :=
  match alget st.fileIndex fileId with
  | none => none
  | some info =>
    match reconstructGo selfName localStore st.table.blocks request info.blockIds with
    | none => none
    | some d => some (d, info.originalFilename)

/-- Write one payload at one peer of the cluster (a delivered `store_block`
or a local `save_block_locally`). -/
def storeAt (cluster : String → NodeStore) (node : String) (blockId : String × Nat)
    (blockData : List Nat) (isReplica : Bool) : String → NodeStore :=
  fun n => if n = node then saveBlockLocally (cluster n) blockId blockData isReplica
           else cluster n

/-- `distribute_blocks` (block_manager.py 353-406) on a healthy cluster:
each placed block's payload is written to the primary peer's `primary/`
dir and the replica peer's `replicas/` dir — locally when that role is
this peer, else via a delivered `store_block` message — then the
file-index row is inserted and persisted.  All stores succeed, so the
returned flag is true. -/
def distributeBlocks (cluster : String → NodeStore) (st : BMState)
    (allocated : List AllocBlock) (fileId : String) (originalFilename : String) :
    (String → NodeStore) × BMState × Bool :=
  let cluster2 := allocated.foldl
    (fun cl b => storeAt (storeAt cl b.primaryNode b.blockId b.data false)
        b.replicaNode b.blockId b.data true)
    cluster
  let info : FileInfo :=
    { originalFilename := originalFilename
      blockIds := allocated.map (fun b => b.blockId)
      totalBlocks := allocated.length
      size := (allocated.map (fun b => b.size)).sum }
  let fi2 := alset st.fileIndex fileId info
  (cluster2, { st with fileIndex := fi2, savedFileIndex := fi2 }, true)

/-- `node.upload_file` (node.py 127-177) minus the wall-clock `file_id`
generation: split, allocate, distribute on a healthy cluster. -/
def uploadFile (cfg : Config) (cluster : String → NodeStore) (st : BMState)
    (data : List Nat) (originalFilename : String) (fileId : String) :
    Except Unit ((String → NodeStore) × BMState) :=
  let blocks := splitFileIntoBlocks cfg data originalFilename fileId
  match allocateBlocks cfg st blocks originalFilename with
  | (.error _, _) => .error ()
  | (.ok rows, st1) =>
    let out := distributeBlocks cluster st1 rows fileId originalFilename
    .ok (out.1, out.2.1)

/-- First truthy (present and non-empty) payload of a source list. -/
def firstNonEmpty : List (Option (List Nat)) → Option (List Nat)
  | [] => none
  | o :: rest => if truthyData o then o else firstNonEmpty rest

/-- The amended C4 reading of `_get_block`: the first NON-EMPTY payload
among, in order, the local disk, the remote primary (if the block row
exists, names a non-empty primary, and the primary is not this peer), and
the remote replica likewise; absent when no source yields a non-empty
payload. -/
def getBlockAmendedOrder (selfName : String) (localStore : NodeStore)
    (blocks : List ((String × Nat) × Row))
    (request : String → (String × Nat) → Option (List Nat))
    (blockId : String × Nat) : Option (List Nat) :=
  firstNonEmpty
    [getBlockLocally localStore blockId,
     (match alget blocks blockId with
      | none => none
      | some row =>
        if row.primaryNode ≠ "" ∧ row.primaryNode ≠ selfName then
          request row.primaryNode blockId
        else none),
     (match alget blocks blockId with
      | none => none
      | some row =>
        if row.replicaNode ≠ "" ∧ row.replicaNode ≠ selfName then
          request row.replicaNode blockId
        else none)]

/-- C4 as literally claimed: return the FIRST PAYLOAD FOUND (empty or not)
in the order local disk, remote primary (unless the primary is this node),
remote replica (unless the replica is this node); absent when all three
sources miss. -/
def getBlockClaimedOrder (selfName : String) (localStore : NodeStore)
    (blocks : List ((String × Nat) × Row))
    (request : String → (String × Nat) → Option (List Nat))
    (blockId : String × Nat) : Option (List Nat) :=
  match getBlockLocally localStore blockId with
  | some d => some d
  | none =>
    match alget blocks blockId with
    | none => none
    | some row =>
      match (if row.primaryNode ≠ selfName then request row.primaryNode blockId
             else none) with
      | some d => some d
      | none =>
        if row.replicaNode ≠ selfName then request row.replicaNode blockId else none

/-! ## `delete_file` (block_manager.py 514-566) -/

/-- Local side of one delete: when the role names this peer,
`delete_block_locally` clears both directories for the block. -/
def deleteRoleLocal (selfName : String) (role : Option String) (ns : NodeStore)
    (blockId : String × Nat) : NodeStore :=
  match role with
  | some x => if x = selfName then deleteBlockLocallyStore ns blockId else ns
  | none => ns

/-- Remote side of one delete: `_delete_block_from_node` is sent when the
role names another (non-empty) peer and a network manager is wired; its
boolean reply is received and discarded, exactly as the code drops the
result. -/
def deleteRoleRemote (selfName : String) (hasNM : Bool)
    (responses : String → (String × Nat) → Bool) (role : Option String)
    (blockId : String × Nat) : List (String × (String × Nat)) :=
  match role with
  | some x =>
    if x = selfName then []
    else if x ≠ "" ∧ hasNM then
      let _ok := responses x blockId
      [(x, blockId)]
    else []
  | none => []

/-- `if node and node in node_usage: node_usage[node] = max(0, usage - 1)`
(block_manager.py 550-553); Nat subtraction is the floor at zero. -/
def decrementUsage (u : List (String × Nat)) (role : Option String) :
    List (String × Nat) :=
  match role with
  | some x =>
    if x ≠ "" ∧ alContains u x then alset u x ((alget u x).getD 0 - 1) else u
  | none => u

/-- One iteration of the delete loop of `delete_file` (block_manager.py
532-557) for one `block_id`: issue deletes to the primary and the replica
(locally when that role is this peer, remotely otherwise), decrement the
usage of each named peer that has a usage entry, and remove the block row.
A missing block row (`blocks.get(block_id, {})`) yields `None` role names
and the iteration does nothing.  The Python statements interleave the
three state components (this peer's store, the sent messages, the table);
they commute, so the iteration is written componentwise. -/
def deleteFileStep (selfName : String) (hasNM : Bool)
    (responses : String → (String × Nat) → Bool)
    (acc : BlockTable × NodeStore × List (String × (String × Nat)))
    (blockId : String × Nat) :
    BlockTable × NodeStore × List (String × (String × Nat)) :=
  let bt := acc.1
  let rowOpt := alget bt.blocks blockId
  let pOpt : Option String := rowOpt.map (fun r => r.primaryNode)
  let rOpt : Option String := rowOpt.map (fun r => r.replicaNode)
  let ns2 := deleteRoleLocal selfName rOpt
    (deleteRoleLocal selfName pOpt acc.2.1 blockId) blockId
  let evs2 := acc.2.2 ++ deleteRoleRemote selfName hasNM responses pOpt blockId
    ++ deleteRoleRemote selfName hasNM responses rOpt blockId
  let u2 := decrementUsage (decrementUsage bt.nodeUsage pOpt) rOpt
  (⟨alerase bt.blocks blockId, u2⟩, ns2, evs2)

def deleteFileLoop (selfName : String) (hasNM : Bool)
    (responses : String → (String × Nat) → Bool) :
    List (String × Nat) → BlockTable × NodeStore × List (String × (String × Nat))
    → BlockTable × NodeStore × List (String × (String × Nat))
  | [], acc => acc
  | blockId :: rest, acc =>
    deleteFileLoop selfName hasNM responses rest
      (deleteFileStep selfName hasNM responses acc blockId)

/-- The observable outcome of `delete_file`: the returned flag, the block
manager state, this peer's store, and the remote `delete_block` messages
sent (in order). -/
structure DeleteOutcome where
  result : Bool
  state : BMState
  localStore : NodeStore
  remoteDeletes : List (String × (String × Nat))

/-- `delete_file` (block_manager.py 514-566): absent file-ID → `False`,
no change; else run the loop over the file's block-IDs, remove the
file-index row, persist both tables, return `True` — regardless of the
`responses` to the remote deletes, which the code discards. -/
def deleteFile (selfName : String) (hasNM : Bool)
    (responses : String → (String × Nat) → Bool)
    (st : BMState) (localStore : NodeStore) (fileId : String) : DeleteOutcome :=
  match alget st.fileIndex fileId with
  | none => ⟨false, st, localStore, []⟩
  | some info =>
    let out := deleteFileLoop selfName hasNM responses info.blockIds
      (st.table, localStore, [])
    let fi2 := alerase st.fileIndex fileId
    ⟨true,
     { table := out.1, savedTable := out.1, fileIndex := fi2, savedFileIndex := fi2 },
     out.2.1, out.2.2⟩

/-- The delete messages the C7 claim expects: for each block, one delete to
the primary and one to the replica, skipping the role held by this peer. -/
def specRemoteDeletes (selfName : String) (blocks : List ((String × Nat) × Row))
    (ids : List (String × Nat)) : List (String × (String × Nat)) :=
  (ids.map fun blockId =>
    match alget blocks blockId with
    | none => []
    | some row =>
      (if row.primaryNode = selfName then [] else [(row.primaryNode, blockId)])
      ++ (if row.replicaNode = selfName then [] else [(row.replicaNode, blockId)])).flatten

/-- How many usage decrements `delete_file` directs at peer `n`: one per
block naming `n` as primary plus one per block naming `n` as replica. -/
def chargeCount (blocks : List ((String × Nat) × Row)) (ids : List (String × Nat))
    (n : String) : Nat :=
  (ids.map fun blockId =>
    match alget blocks blockId with
    | none => 0
    | some row =>
      (if row.primaryNode = n then 1 else 0) + (if row.replicaNode = n then 1 else 0)).sum

/-! ## Gossip merge (block_manager.py 643-663) -/

/-- The first-writer-wins union loop shared by `sync_block_table` and
`sync_file_index`: walk the remote dict in order, copying in each row whose
key is not already present. -/
def dictUnionFWW {κ : Type u} {ν : Type v} [DecidableEq κ]
    (localRows remoteRows : List (κ × ν)) : List (κ × ν) :=
  remoteRows.foldl (fun acc kv => if alContains acc kv.1 then acc else acc ++ [kv]) localRows

/-- `sync_block_table` (block_manager.py 643-654): union-merge the remote
`blocks` into the local table and persist; `node_usage` is not touched. -/
def syncBlockTable (st : BMState) (remote : BlockTable) : BMState :=
  let bt2 : BlockTable :=
    { blocks := dictUnionFWW st.table.blocks remote.blocks
      nodeUsage := st.table.nodeUsage }
  { st with table := bt2, savedTable := bt2 }

/-- `sync_file_index` (block_manager.py 656-663). -/
def syncFileIndex (st : BMState) (remoteIndex : List (String × FileInfo)) : BMState :=
  let fi2 := dictUnionFWW st.fileIndex remoteIndex
  { st with fileIndex := fi2, savedFileIndex := fi2 }

/-! ## Message dispatch (`_process_message`, network.py 247-411) -/

/-- The handler selected by the `if message_type == ...` ladder, branch
conditions in source order; a type matching no branch falls to the final
`else` ("Tipo de mensaje desconocido"). -/
inductive MsgHandler where
  | heartbeat
  | transferFile
  | transferFolder
  | viewFile
  | getPendingOperations
  | getAllPendings
  | listFiles
  | storeBlock
  | getBlock
  | deleteBlock
  | getBlockTable
  | syncBlockTableMsg
  | getDistributedFiles
  | getSystemStats
  | unknownType
deriving DecidableEq, Repr

def dispatchMessageType (t : String) : MsgHandler :=
  if t = "heartbeat" then .heartbeat
  else if t = "transfer_file" then .transferFile
  else if t = "transfer_folder" then .transferFolder
  else if t = "view_file" then .viewFile
  else if t = "get_pending_operations" then .getPendingOperations
  else if t = "get_all_pendings" then .getAllPendings
  else if t = "list_files" then .listFiles
  else if t = "store_block" then .storeBlock
  else if t = "get_block" then .getBlock
  else if t = "delete_block" then .deleteBlock
  else if t = "get_block_table" then .getBlockTable
  else if t = "sync_block_table" then .syncBlockTableMsg
  else if t = "get_distributed_files" then .getDistributedFiles
  else if t = "get_system_stats" then .getSystemStats
  else .unknownType

/-- The `status` field of the reply `_process_message` sends for a message
of type `t`: each handled branch's status is its handler's outcome
(abstracted as `handlerStatus`); the unknown-type `else` replies
`{"status": "error", "message": "Tipo de mensaje desconocido"}`. -/
def processMessageStatus (handlerStatus : MsgHandler → String) (t : String) : String :=
  match dispatchMessageType t with
  | .unknownType => "error"
  | h => handlerStatus h

/-! ## Concrete states for the empty-file scenario (spec scenario 1) -/

/-- The deployed three-peer directory of `config.py` seen from `Maq1`
(capacities 70/50/100 MB, 1 MiB blocks). -/
def cfgMaq : Config :=
  ⟨["Maq1", "Maq2", "Maq3"],
   fun n => if n = "Maq1" then 70 else if n = "Maq2" then 50
            else if n = "Maq3" then 100 else 50,
   1048576, "Maq1"⟩

def emptyStore : NodeStore := ⟨fun _ => none, fun _ => none⟩

def emptyBM : BMState := ⟨⟨[], []⟩, ⟨[], []⟩, [], []⟩

/-- The zero-byte upload of `"empty.txt"` on a healthy cluster. -/
def emptyFileUpload : Except Unit ((String → NodeStore) × BMState) :=
  uploadFile cfgMaq (fun _ => emptyStore) emptyBM [] "empty.txt" "f1"

def emptyFileCluster : String → NodeStore :=
  match emptyFileUpload with
  | .ok out => out.1
  | .error _ => fun _ => emptyStore

def emptyFileState : BMState :=
  match emptyFileUpload with
  | .ok out => out.2
  | .error _ => emptyBM

/-- The healthy remote fetch: `_request_block_from_node` reaching each
peer's `get_block` handler. -/
def emptyFileRequest : String → (String × Nat) → Option (List Nat) :=
  fun n blockId => handleGetBlock (emptyFileCluster n) blockId

/-- A one-file, one-block state used to witness the `delete_file` claim:
the file `"f"` has block `("f",0)` with primary `"A"` (this peer) and
replica `"B"`, and both peers carry usage. -/
def c7State : BMState :=
  ⟨⟨[(("f", 0), ⟨0, "f", "t.txt", 3, "A", "B"⟩)], [("A", 2), ("B", 1)]⟩,
   ⟨[], []⟩,
   [("f", ⟨"t.txt", [("f", 0)], 1, 3⟩)],
   []⟩

def c7Store : NodeStore :=
  ⟨fun k => if k = ("f", 0) then some [1, 2, 3] else none, fun _ => none⟩

def c7Info : FileInfo := ⟨"t.txt", [("f", 0)], 1, 3⟩

/-! ### end of definitions marker -/

theorem alget_alset {κ : Type u} {ν : Type v} [DecidableEq κ]
    (l : List (κ × ν)) (k : κ) (v : ν) (n : κ) :
    alget (alset l k v) n = if n = k then some v else alget l n := by
  induction l with
  | nil =>
    by_cases h : n = k
    · subst h; simp [alset, alget]
    · have h2 : ¬ k = n := fun hh => h hh.symm
      simp [alset, alget, h, h2]
  | cons p rest ih =>
    obtain ⟨k', v'⟩ := p
    by_cases h1 : k' = k
    · subst h1
      by_cases h : n = k'
      · subst h; simp [alset, alget]
      · have h2 : ¬ k' = n := fun hh => h hh.symm
        simp [alset, alget, h, h2]
    · by_cases h : n = k
      · subst h
        have h2 : ¬ k' = n := h1
        simp [alset, alget, h1, h2, ih]
      · by_cases h4 : k' = n
        · subst h4
          simp [alset, alget, h1, h]
        · simp [alset, alget, h1, h4, h, ih]

theorem alget_alerase {κ : Type u} {ν : Type v} [DecidableEq κ]
    (l : List (κ × ν)) (k : κ) (n : κ) :
    alget (alerase l k) n = if n = k then none else alget l n := by
  induction l with
  | nil =>
    by_cases h : n = k <;> simp [alerase, alget, h]
  | cons p rest ih =>
    obtain ⟨k', v'⟩ := p
    by_cases h1 : k' = k
    · subst h1
      by_cases h : n = k'
      · subst h; simpa [alerase, alget] using ih
      · have h2 : ¬ k' = n := fun hh => h hh.symm
        have he : alerase ((k', v') :: rest) k' = alerase rest k' := by
          simp [alerase]
        rw [he, ih, if_neg h, alget, if_neg h2, if_neg h]
    · by_cases h4 : k' = n
      · have h2 : ¬ n = k := fun hh => h1 (h4.trans hh)
        simp [alerase, alget, h1, h4, h2]
      · simp only [alerase, if_neg h1, alget, if_neg h4]
        rw [ih]

theorem alget_append {κ : Type u} {ν : Type v} [DecidableEq κ]
    (l1 l2 : List (κ × ν)) (k : κ) :
    alget (l1 ++ l2) k = optFirst (alget l1 k) (alget l2 k) := by
  induction l1 with
  | nil => simp [alget, optFirst]
  | cons p rest ih =>
    obtain ⟨k', v'⟩ := p
    by_cases h : k' = k <;> simp [alget, optFirst, h, ih]

theorem alget_isSome_of_mem {κ : Type u} {ν : Type v} [DecidableEq κ]
    (l : List (κ × ν)) (k : κ) (v : ν) (h : (k, v) ∈ l) :
    (alget l k).isSome = true := by
  induction l with
  | nil => cases h
  | cons p rest ih =>
    obtain ⟨k', v'⟩ := p
    rcases List.mem_cons.mp h with h1 | h1
    · cases h1
      simp [alget]
    · by_cases h2 : k' = k <;> simp [alget, h2, ih h1]

theorem splitFileIntoBlocks_length (cfg : Config) (data : List Nat) (ofn fid : String) :
    (splitFileIntoBlocks cfg data ofn fid).length
      = max 1 ((data.length + cfg.blockSize - 1) / cfg.blockSize) := by
  unfold splitFileIntoBlocks
  simp only [List.length_map, List.length_range]
  generalize (data.length + cfg.blockSize - 1) / cfg.blockSize = c
  by_cases h0 : c = 0
  · rw [if_pos h0, h0]
    simp
  · rw [if_neg h0]
    rw [Nat.max_eq_right (by omega)]

theorem splitFileIntoBlocks_get (cfg : Config) (data : List Nat) (ofn fid : String)
    (i : Nat) (hi : i < (splitFileIntoBlocks cfg data ofn fid).length) :
    (splitFileIntoBlocks cfg data ofn fid)[i] =
      { blockId := (fid, i)
        blockNum := i
        fileId := fid
        originalFilename := ofn
        size := ((data.drop (i * cfg.blockSize)).take cfg.blockSize).length
        data := (data.drop (i * cfg.blockSize)).take cfg.blockSize } := by
  unfold splitFileIntoBlocks at hi ⊢
  rw [List.getElem_map]
  simp only [List.getElem_range]

/-- Euclidean facts about the block count `c = (n + bs - 1) / bs`. -/
theorem blockCount_bounds (n bs : Nat) (hbs : 0 < bs) (hn : 0 < n) :
    (((n + bs - 1) / bs) - 1) * bs < n ∧ n ≤ ((n + bs - 1) / bs) * bs := by
  have hmod := Nat.div_add_mod (n + bs - 1) bs
  have hlt : (n + bs - 1) % bs < bs := Nat.mod_lt _ hbs
  set c := (n + bs - 1) / bs with hc
  set r := (n + bs - 1) % bs with hr
  have hcpos : 0 < c := by
    rcases Nat.eq_zero_or_pos c with h0 | h0
    · exfalso
      have : bs * c + r = n + bs - 1 := hmod
      rw [h0] at this
      omega
    · exact h0
  constructor
  · have : bs * c + r = n + bs - 1 := hmod
    have h1 : bs * c ≤ n + bs - 1 := by omega
    have h2 : bs * (c - 1) = bs * c - bs := by
      cases c with
      | zero => omega
      | succ m => simp [Nat.mul_succ]
    calc (c - 1) * bs = bs * (c - 1) := Nat.mul_comm _ _
      _ = bs * c - bs := h2
      _ < n := by omega
  · have : bs * c + r = n + bs - 1 := hmod
    have h1 : n + bs - 1 ≤ bs * c + bs - 1 := by omega
    calc n ≤ bs * c := by omega
      _ = c * bs := Nat.mul_comm _ _

/-- Concatenating the first `t` chunks of size `bs` gives the first `t*bs`
elements. -/
theorem chunks_flatten (data : List Nat) (bs : Nat) (t : Nat) :
    ((List.range t).map fun i => (data.drop (i * bs)).take bs).flatten
      = data.take (t * bs) := by
  induction t with
  | zero => simp
  | succ m ih =>
    rw [List.range_succ, List.map_append, List.flatten_append, ih]
    simp only [List.map_cons, List.map_nil, List.flatten_cons, List.flatten_nil,
      List.append_nil]
    rw [Nat.succ_mul, List.take_add]

/-- C5 helper: the split's blocks in order hold exactly the file's bytes. -/
theorem splitFileIntoBlocks_flatten (cfg : Config) (data : List Nat) (ofn fid : String)
    (hbs : 0 < cfg.blockSize) :
    ((splitFileIntoBlocks cfg data ofn fid).map (fun b => b.data)).flatten = data := by
  unfold splitFileIntoBlocks
  rw [List.map_map]
  have heq : ((List.range (if (data.length + cfg.blockSize - 1) / cfg.blockSize = 0 then 1
      else (data.length + cfg.blockSize - 1) / cfg.blockSize)).map
        fun i => (data.drop (i * cfg.blockSize)).take cfg.blockSize).flatten
      = data.take ((if (data.length + cfg.blockSize - 1) / cfg.blockSize = 0 then 1
      else (data.length + cfg.blockSize - 1) / cfg.blockSize) * cfg.blockSize) :=
    chunks_flatten data cfg.blockSize _
  refine Eq.trans (by exact heq) ?_
  apply List.take_of_length_le
  by_cases hn : data.length = 0
  · simp [hn]
  · have hb := blockCount_bounds data.length cfg.blockSize hbs (Nat.pos_of_ne_zero hn)
    have hcne : (data.length + cfg.blockSize - 1) / cfg.blockSize ≠ 0 := by
      intro h0
      rw [h0] at hb
      omega
    rw [if_neg hcne]
    exact hb.2

/-! ## Lemmas about the candidate sort and the selection rule -/

theorem head_insertByFreeDesc (x : Cand) (l : List Cand) :
    (insertByFreeDesc x l).head? =
      match l.head? with
      | none => some x
      | some y => if y.freeSpace ≤ x.freeSpace then some x else some y := by
  cases l with
  | nil => rfl
  | cons y ys =>
    by_cases h : y.freeSpace ≤ x.freeSpace <;> simp [insertByFreeDesc, h]

theorem sortByFreeDesc_head (l : List Cand) :
    (sortByFreeDesc l).head? = firstMaxFree l := by
  induction l with
  | nil => rfl
  | cons c cs ih =>
    rw [sortByFreeDesc, head_insertByFreeDesc, ih, firstMaxFree]
    cases hm : firstMaxFree cs with
    | none => rfl
    | some m =>
      simp only []
      rcases le_or_lt m.freeSpace c.freeSpace with h | h
      · rw [if_pos h, if_neg (not_lt.2 h)]
      · rw [if_neg (not_le.2 h), if_pos h]

theorem length_insertByFreeDesc (x : Cand) (l : List Cand) :
    (insertByFreeDesc x l).length = l.length + 1 := by
  induction l with
  | nil => rfl
  | cons y ys ih =>
    by_cases h : y.freeSpace ≤ x.freeSpace <;> simp [insertByFreeDesc, h, ih]

theorem length_sortByFreeDesc (l : List Cand) :
    (sortByFreeDesc l).length = l.length := by
  induction l with
  | nil => rfl
  | cons x xs ih => simp [sortByFreeDesc, length_insertByFreeDesc, ih]

theorem mem_insertByFreeDesc (x y : Cand) (l : List Cand) :
    y ∈ insertByFreeDesc x l ↔ y = x ∨ y ∈ l := by
  induction l with
  | nil => simp [insertByFreeDesc]
  | cons z zs ih =>
    by_cases h : z.freeSpace ≤ x.freeSpace
    · simp only [insertByFreeDesc, if_pos h, List.mem_cons]
    · simp only [insertByFreeDesc, if_neg h, List.mem_cons, ih]
      tauto

theorem mem_sortByFreeDesc (y : Cand) (l : List Cand) :
    y ∈ sortByFreeDesc l ↔ y ∈ l := by
  induction l with
  | nil => simp [sortByFreeDesc]
  | cons x xs ih => simp [sortByFreeDesc, mem_insertByFreeDesc, ih]

theorem mem_of_head? {α : Type u} (l : List α) (a : α) (h : l.head? = some a) : a ∈ l := by
  cases l with
  | nil => cases h
  | cons x xs =>
    simp only [List.head?] at h
    cases h
    exact List.mem_cons_self _ _

theorem mem_eligiblePeers (cfg : Config) (u : String → Nat) (ex : Option String) (c : Cand)
    (h : c ∈ eligiblePeers cfg u ex) :
    c.node ∈ cfg.nodes ∧ some c.node ≠ ex
      ∧ c.freeSpace = cfg.capacity c.node - (u c.node : Int)
      ∧ c.used = u c.node ∧ c.capacity = cfg.capacity c.node
      ∧ 0 < c.freeSpace := by
  simp only [eligiblePeers, List.mem_filterMap] at h
  obtain ⟨n, hn, hfn⟩ := h
  split_ifs at hfn with h1 h2 <;>
    first
      | (cases hfn; exact ⟨hn, h1, rfl, rfl, rfl, h2⟩)
      | exact absurd hfn (by simp)

theorem eligiblePeers_node_iff (cfg : Config) (u : String → Nat) (ex : Option String)
    (n : String) :
    (∃ c ∈ eligiblePeers cfg u ex, c.node = n)
      ↔ (n ∈ cfg.nodes ∧ some n ≠ ex ∧ 0 < cfg.capacity n - (u n : Int)) := by
  constructor
  · rintro ⟨c, hc, rfl⟩
    have h := mem_eligiblePeers cfg u ex c hc
    refine ⟨h.1, h.2.1, ?_⟩
    rw [← h.2.2.1]
    exact h.2.2.2.2.2
  · rintro ⟨hn, hne, hfree⟩
    refine ⟨⟨n, cfg.capacity n - (u n : Int), u n, cfg.capacity n⟩, ?_, rfl⟩
    simp only [eligiblePeers, List.mem_filterMap]
    refine ⟨n, hn, ?_⟩
    rw [if_neg hne]
    simp only [if_pos hfree]

theorem usageFn_chargeUsage (usage : List (String × Nat)) (p : String) (mb : Nat)
    (n : String) :
    (alget (chargeUsage usage p mb) n).getD 0
      = if n = p then (alget usage n).getD 0 + mb else (alget usage n).getD 0 := by
  unfold chargeUsage
  rw [alget_alset]
  by_cases h : n = p
  · subst h
    simp
  · simp [h]

theorem usageFn_charge2 (usage : List (String × Nat)) (p r : String) (mb : Nat) :
    (fun n => (alget (chargeUsage (chargeUsage usage p mb) r mb) n).getD 0)
      = chargeFn (fun n => (alget usage n).getD 0) p r mb := by
  funext n
  rw [usageFn_chargeUsage]
  unfold chargeFn
  simp only []
  by_cases hr : n = r
  · rw [if_pos hr, if_pos hr, usageFn_chargeUsage]
  · rw [if_neg hr, if_neg hr, usageFn_chargeUsage]

theorem mem_alset {κ : Type u} {ν : Type v} [DecidableEq κ]
    (l : List (κ × ν)) (k : κ) (v : ν) (kv : κ × ν) (h : kv ∈ alset l k v) :
    kv ∈ l ∨ kv = (k, v) := by
  induction l with
  | nil =>
    simp only [alset] at h
    rcases List.mem_singleton.mp h with h1
    exact Or.inr h1
  | cons p rest ih =>
    obtain ⟨k', v'⟩ := p
    by_cases h1 : k' = k
    · rw [alset, if_pos h1] at h
      rcases List.mem_cons.mp h with h2 | h2
      · exact Or.inr h2
      · exact Or.inl (List.mem_cons_of_mem _ h2)
    · rw [alset, if_neg h1] at h
      rcases List.mem_cons.mp h with h2 | h2
      · exact Or.inl (h2 ▸ List.mem_cons_self _ _)
      · rcases ih h2 with h3 | h3
        · exact Or.inl (List.mem_cons_of_mem _ h3)
        · exact Or.inr h3

/-! ## Core lemmas about `allocate_blocks` -/

theorem allocGo_specPlaced (cfg : Config) (ofn : String) (blocks : List BlockIn) :
    ∀ (bt : BlockTable) (rows : List AllocBlock) (btF : BlockTable),
    allocGo cfg ofn blocks bt = .ok (rows, btF) →
    specPlaced cfg blocks rows (fun n => (alget bt.nodeUsage n).getD 0) = true := by
  induction blocks with
  | nil =>
    intro bt rows btF h
    simp only [allocGo, Except.ok.injEq, Prod.mk.injEq] at h
    obtain ⟨h1, h2⟩ := h
    subst h1
    rfl
  | cons b bs ih =>
    intro bt rows btF h
    simp only [allocGo] at h
    by_cases hlen : (getAvailableNodes cfg bt.nodeUsage none).length < 2
    · rw [if_pos hlen] at h
      simp at h
    · rw [if_neg hlen] at h
      cases havail : (getAvailableNodes cfg bt.nodeUsage none).head? with
      | none =>
        rw [havail] at h
        simp at h
      | some top =>
        rw [havail] at h
        simp only [] at h
        cases hrep : (getAvailableNodes cfg bt.nodeUsage (some top.node)).head? with
        | none =>
          rw [hrep] at h
          simp at h
        | some rc =>
          rw [hrep] at h
          simp only [] at h
          cases hrec : allocGo cfg ofn bs (allocStep cfg ofn b bt top.node rc.node) with
          | error btE =>
            rw [hrec] at h
            simp at h
          | ok pr =>
            obtain ⟨restAlloc, btF2⟩ := pr
            rw [hrec] at h
            simp only [Except.ok.injEq, Prod.mk.injEq] at h
            obtain ⟨h1, h2⟩ := h
            subst h1
            have hA : firstMaxFree
                (eligiblePeers cfg (fun n => (alget bt.nodeUsage n).getD 0) none)
                = some top := by
              rw [← sortByFreeDesc_head]
              exact havail
            have hB : firstMaxFree
                (eligiblePeers cfg (fun n => (alget bt.nodeUsage n).getD 0) (some top.node))
                = some rc := by
              rw [← sortByFreeDesc_head]
              exact hrep
            have hspec := ih _ restAlloc btF2 hrec
            simp only [allocStep] at hspec
            rw [usageFn_charge2] at hspec
            simp only [specPlaced, allocMark, hA, hB, Bool.and_eq_true, beq_self_eq_true,
              true_and, and_true]
            exact hspec


theorem allocGo_fails_iff (cfg : Config) (ofn : String) (blocks : List BlockIn) :
    ∀ (bt : BlockTable),
    exceptIsError (allocGo cfg ofn blocks bt)
      = specAllocFails cfg blocks (fun n => (alget bt.nodeUsage n).getD 0) := by
  induction blocks with
  | nil =>
    intro bt
    rfl
  | cons b bs ih =>
    intro bt
    simp only [allocGo, specAllocFails, getAvailableNodes]
    rw [length_sortByFreeDesc, sortByFreeDesc_head]
    by_cases hl : (eligiblePeers cfg (fun n => (alget bt.nodeUsage n).getD 0) none).length < 2
    · rw [if_pos hl, if_pos hl]
      rfl
    · rw [if_neg hl, if_neg hl]
      cases hA : firstMaxFree (eligiblePeers cfg (fun n => (alget bt.nodeUsage n).getD 0) none) with
      | none => rfl
      | some top =>
        simp only []
        rw [sortByFreeDesc_head]
        cases hB : firstMaxFree
            (eligiblePeers cfg (fun n => (alget bt.nodeUsage n).getD 0) (some top.node)) with
        | none => rfl
        | some rc =>
          simp only []
          have hmatch : ∀ (e : Except BlockTable (List AllocBlock × BlockTable)),
              exceptIsError (match e with
                | .error btE => (.error btE : Except BlockTable (List AllocBlock × BlockTable))
                | .ok (restAlloc, btF) =>
                  .ok (allocMark b top.node rc.node :: restAlloc, btF))
              = exceptIsError e := by
            intro e
            cases e with
            | error btE => rfl
            | ok pr =>
              obtain ⟨x, y⟩ := pr
              rfl
          rw [hmatch, ih]
          simp only [allocStep]
          rw [usageFn_charge2]

theorem allocGo_disjoint (cfg : Config) (ofn : String) (blocks : List BlockIn) :
    ∀ (bt : BlockTable) (rows : List AllocBlock) (btF : BlockTable),
    allocGo cfg ofn blocks bt = .ok (rows, btF) →
    (∀ a ∈ rows, a.primaryNode ≠ a.replicaNode)
    ∧ (∀ kv ∈ btF.blocks, kv ∈ bt.blocks ∨ kv.2.primaryNode ≠ kv.2.replicaNode) := by
  induction blocks with
  | nil =>
    intro bt rows btF h
    simp only [allocGo, Except.ok.injEq, Prod.mk.injEq] at h
    obtain ⟨h1, h2⟩ := h
    subst h1
    subst h2
    exact ⟨by simp, fun kv hkv => Or.inl hkv⟩
  | cons b bs ih =>
    intro bt rows btF h
    simp only [allocGo] at h
    by_cases hlen : (getAvailableNodes cfg bt.nodeUsage none).length < 2
    · rw [if_pos hlen] at h
      simp at h
    · rw [if_neg hlen] at h
      cases havail : (getAvailableNodes cfg bt.nodeUsage none).head? with
      | none =>
        rw [havail] at h
        simp at h
      | some top =>
        rw [havail] at h
        simp only [] at h
        cases hrep : (getAvailableNodes cfg bt.nodeUsage (some top.node)).head? with
        | none =>
          rw [hrep] at h
          simp at h
        | some rc =>
          rw [hrep] at h
          simp only [] at h
          have hrcel : rc ∈ eligiblePeers cfg (fun n => (alget bt.nodeUsage n).getD 0)
              (some top.node) := by
            have hrcmem := mem_of_head? _ _ hrep
            simp only [getAvailableNodes, mem_sortByFreeDesc] at hrcmem
            exact hrcmem
          have hne : rc.node ≠ top.node := by
            have h5 := mem_eligiblePeers _ _ _ _ hrcel
            intro heq
            exact h5.2.1 (by rw [heq])
          cases hrec : allocGo cfg ofn bs (allocStep cfg ofn b bt top.node rc.node) with
          | error btE =>
            rw [hrec] at h
            simp at h
          | ok pr =>
            obtain ⟨restAlloc, btF2⟩ := pr
            rw [hrec] at h
            simp only [Except.ok.injEq, Prod.mk.injEq] at h
            obtain ⟨h1, h2⟩ := h
            subst h1
            subst h2
            obtain ⟨ihRows, ihTab⟩ := ih _ restAlloc _ hrec
            constructor
            · intro a ha
              rcases List.mem_cons.mp ha with h3 | h3
              · subst h3
                simp only [allocMark]
                exact fun heq => hne heq.symm
              · exact ihRows a h3
            · intro kv hkv
              rcases ihTab kv hkv with h3 | h3
              · rcases mem_alset _ _ _ _ (by simpa [allocStep] using h3) with h4 | h4
                · exact Or.inl h4
                · right
                  rw [h4]
                  simp only [allocRow]
                  exact fun heq => hne heq.symm
              · exact Or.inr h3


/-! ## Claim theorems for `allocate_blocks` -/

/-- C2: for every block allocated by `allocate_blocks`, the candidate peers
are exactly the configured peers (remote and self) with free space
strictly greater than zero, where free = declared capacity minus current
usage; the primary is the candidate with the most free space (ties broken
by the insertion order of the peer directory), the replica is the best
candidate after excluding the primary, and the ranking is recomputed for
each block in order after the previous block's usage charges
(`specPlaced`). -/
theorem allocate_blocks_greedy_selection (cfg : Config) (st : BMState)
    (blocks : List BlockIn) (ofn : String) (rows : List AllocBlock)
    (h : (allocateBlocks cfg st blocks ofn).1 = .ok rows) :
    specPlaced cfg blocks rows (fun n => (alget st.table.nodeUsage n).getD 0) = true
    ∧ (∀ (usage : List (String × Nat)) (ex : Option String) (n : String),
        (∃ c ∈ getAvailableNodes cfg usage ex, c.node = n)
          ↔ (n ∈ cfg.nodes ∧ some n ≠ ex
              ∧ 0 < cfg.capacity n - ((alget usage n).getD 0 : Int))) := by
  constructor
  · unfold allocateBlocks at h
    cases hrec : allocGo cfg ofn blocks st.table with
    | error btE =>
      rw [hrec] at h
      simp at h
    | ok pr =>
      obtain ⟨rows2, btF⟩ := pr
      rw [hrec] at h
      simp only [Except.ok.injEq] at h
      subst h
      exact allocGo_specPlaced cfg ofn blocks st.table rows2 btF hrec
  · intro usage ex n
    have hiff := eligiblePeers_node_iff cfg (fun m => (alget usage m).getD 0) ex n
    constructor
    · rintro ⟨c, hc, rfl⟩
      refine hiff.mp ⟨c, ?_, rfl⟩
      simpa [getAvailableNodes, mem_sortByFreeDesc] using hc
    · intro hr
      obtain ⟨c, hc, hcn⟩ := hiff.mpr hr
      refine ⟨c, ?_, hcn⟩
      simpa [getAvailableNodes, mem_sortByFreeDesc] using hc

/-- Witness for C2: a concrete successful allocation on a two-peer
directory with equal free space; the tie goes to the first peer "A" and
the replica to "B". -/
theorem allocate_blocks_greedy_selection_witness :
    ((allocateBlocks ⟨["A", "B"], fun _ => 2, 5, "A"⟩
        ⟨⟨[], []⟩, ⟨[], []⟩, [], []⟩
        [⟨("f", 0), 0, "f", "t.txt", 3, [9, 9, 9]⟩] "t.txt").1
      = .ok [⟨("f", 0), 0, "f", "t.txt", 3, [9, 9, 9], "A", "B"⟩])
    ∧ specPlaced ⟨["A", "B"], fun _ => 2, 5, "A"⟩
        [⟨("f", 0), 0, "f", "t.txt", 3, [9, 9, 9]⟩]
        [⟨("f", 0), 0, "f", "t.txt", 3, [9, 9, 9], "A", "B"⟩]
        (fun n => (alget (⟨⟨[], []⟩, ⟨[], []⟩, [], []⟩ : BMState).table.nodeUsage n).getD 0)
      = true :=
  ⟨by rfl,
   (allocate_blocks_greedy_selection ⟨["A", "B"], fun _ => 2, 5, "A"⟩
      ⟨⟨[], []⟩, ⟨[], []⟩, [], []⟩
      [⟨("f", 0), 0, "f", "t.txt", 3, [9, 9, 9]⟩] "t.txt"
      [⟨("f", 0), 0, "f", "t.txt", 3, [9, 9, 9], "A", "B"⟩] (by rfl)).1⟩

/-- C3: every block row `allocate_blocks` writes into the block table has
`primary_node ≠ replica_node`, for every input block list and every
starting state in which allocation succeeds: all returned placements are
disjoint, and every row of the resulting table is either a pre-existing
row or disjoint. -/
theorem allocate_blocks_placement_disjoint (cfg : Config) (st : BMState)
    (blocks : List BlockIn) (ofn : String) (rows : List AllocBlock)
    (h : (allocateBlocks cfg st blocks ofn).1 = .ok rows) :
    (∀ a ∈ rows, a.primaryNode ≠ a.replicaNode)
    ∧ (∀ kv ∈ (allocateBlocks cfg st blocks ofn).2.table.blocks,
        kv ∈ st.table.blocks ∨ kv.2.primaryNode ≠ kv.2.replicaNode) := by
  unfold allocateBlocks at h ⊢
  cases hrec : allocGo cfg ofn blocks st.table with
  | error btE =>
    rw [hrec] at h
    simp at h
  | ok pr =>
    obtain ⟨rows2, btF⟩ := pr
    rw [hrec] at h
    simp only [] at h ⊢
    simp only [Except.ok.injEq] at h
    subst h
    exact allocGo_disjoint cfg ofn blocks st.table rows2 btF hrec

/-- Witness for C3: the concrete allocation of the C2 witness places the
block on "A" with replica "B", which are distinct. -/
theorem allocate_blocks_placement_disjoint_witness :
    ((allocateBlocks ⟨["A", "B"], fun _ => 2, 5, "A"⟩
        ⟨⟨[], []⟩, ⟨[], []⟩, [], []⟩
        [⟨("g", 0), 0, "g", "u.txt", 3, [7, 7, 7]⟩] "u.txt").1
      = .ok [⟨("g", 0), 0, "g", "u.txt", 3, [7, 7, 7], "A", "B"⟩])
    ∧ ∀ a ∈ [(⟨("g", 0), 0, "g", "u.txt", 3, [7, 7, 7], "A", "B"⟩ : AllocBlock)],
        a.primaryNode ≠ a.replicaNode :=
  ⟨by rfl,
   (allocate_blocks_placement_disjoint ⟨["A", "B"], fun _ => 2, 5, "A"⟩
      ⟨⟨[], []⟩, ⟨[], []⟩, [], []⟩
      [⟨("g", 0), 0, "g", "u.txt", 3, [7, 7, 7]⟩] "u.txt"
      [⟨("g", 0), 0, "g", "u.txt", 3, [7, 7, 7], "A", "B"⟩] (by rfl)).1⟩

/-- C6 (amended): `allocate_blocks` raises exactly when some block, at its
turn (after the previous blocks' charges), sees fewer than two peers with
free space > 0; on failure nothing is saved to disk (the persisted table is
overwritten only on success), but the in-memory block table keeps the rows
and usage charges of the blocks placed earlier in the same call. -/
theorem allocate_blocks_failure_semantics (cfg : Config) (st : BMState)
    (blocks : List BlockIn) (ofn : String) :
    exceptIsError (allocateBlocks cfg st blocks ofn).1
      = specAllocFails cfg blocks (fun n => (alget st.table.nodeUsage n).getD 0)
    ∧ (allocateBlocks cfg st blocks ofn).2.savedTable
      = (match (allocateBlocks cfg st blocks ofn).1 with
          | .ok _ => (allocateBlocks cfg st blocks ofn).2.table
          | .error _ => st.savedTable) := by
  have hf := allocGo_fails_iff cfg ofn blocks st.table
  unfold allocateBlocks at *
  cases hrec : allocGo cfg ofn blocks st.table with
  | error btE =>
    rw [hrec] at hf
    simp only []
    exact ⟨hf, True.intro⟩
  | ok pr =>
    obtain ⟨rows, btF⟩ := pr
    rw [hrec] at hf
    simp only []
    exact ⟨hf, True.intro⟩

/-- C6 counterexample: with peers `A,B,C` of capacities `1,1,0` and two
blocks, the first block is placed (charging A and B) and the second block
raises; afterwards the observable in-memory block table differs from the
table before the call — the claimed "no block rows and no usage charges
are persisted" fails for the in-memory table. -/
theorem allocate_blocks_partial_mutation_counterexample :
    exceptIsError (allocateBlocks ⟨["A", "B", "C"], fun n => if n = "C" then 0 else 1, 10, "A"⟩
        ⟨⟨[], []⟩, ⟨[], []⟩, [], []⟩
        [⟨("f", 0), 0, "f", "t.txt", 1, [5]⟩, ⟨("f", 1), 1, "f", "t.txt", 1, [6]⟩]
        "t.txt").1 = true
    ∧ (allocateBlocks ⟨["A", "B", "C"], fun n => if n = "C" then 0 else 1, 10, "A"⟩
        ⟨⟨[], []⟩, ⟨[], []⟩, [], []⟩
        [⟨("f", 0), 0, "f", "t.txt", 1, [5]⟩, ⟨("f", 1), 1, "f", "t.txt", 1, [6]⟩]
        "t.txt").2.table
      ≠ (⟨⟨[], []⟩, ⟨[], []⟩, [], []⟩ : BMState).table := by
  constructor
  · rfl
  · decide


/-- C5: for every input file of `n` bytes, `split_file_into_blocks` produces
exactly `max(1, ceil(n / BLOCK_SIZE))` blocks numbered in order (an empty
file yields one block of size 0); every block except the last has size
exactly `BLOCK_SIZE`, the last has the remainder, and concatenating the
payloads in `block_num` order reproduces the file's bytes. -/
theorem split_file_into_blocks_spec (cfg : Config) (data : List Nat) (ofn fid : String)
    (hbs : 0 < cfg.blockSize) :
    (splitFileIntoBlocks cfg data ofn fid).length
        = max 1 ((data.length + cfg.blockSize - 1) / cfg.blockSize)
    ∧ (∀ (i : Nat) (hi : i < (splitFileIntoBlocks cfg data ofn fid).length),
        (splitFileIntoBlocks cfg data ofn fid)[i].blockNum = i
        ∧ (splitFileIntoBlocks cfg data ofn fid)[i].size
            = (splitFileIntoBlocks cfg data ofn fid)[i].data.length)
    ∧ (∀ (i : Nat) (hi : i < (splitFileIntoBlocks cfg data ofn fid).length),
        i + 1 < (splitFileIntoBlocks cfg data ofn fid).length →
        (splitFileIntoBlocks cfg data ofn fid)[i].size = cfg.blockSize)
    ∧ (∀ (i : Nat) (hi : i < (splitFileIntoBlocks cfg data ofn fid).length),
        i + 1 = (splitFileIntoBlocks cfg data ofn fid).length →
        (splitFileIntoBlocks cfg data ofn fid)[i].size
          = data.length - i * cfg.blockSize)
    ∧ ((splitFileIntoBlocks cfg data ofn fid).map (fun b => b.data)).flatten = data := by
  refine ⟨splitFileIntoBlocks_length cfg data ofn fid, ?_, ?_, ?_,
    splitFileIntoBlocks_flatten cfg data ofn fid hbs⟩
  · intro i hi
    rw [splitFileIntoBlocks_get cfg data ofn fid i hi]
    exact ⟨rfl, rfl⟩
  · intro i hi hlast
    rw [splitFileIntoBlocks_get cfg data ofn fid i hi]
    simp only [List.length_take, List.length_drop]
    have hlen := splitFileIntoBlocks_length cfg data ofn fid
    rw [hlen] at hlast
    by_cases hn : data.length = 0
    · exfalso
      have hc0 : (data.length + cfg.blockSize - 1) / cfg.blockSize = 0 := by
        apply Nat.div_eq_of_lt
        omega
      rw [hc0] at hlast
      omega
    · have hb := blockCount_bounds data.length cfg.blockSize hbs (Nat.pos_of_ne_zero hn)
      generalize hcg : (data.length + cfg.blockSize - 1) / cfg.blockSize = c at hb hlast
      have h1 : (i + 1) * cfg.blockSize ≤ (c - 1) * cfg.blockSize :=
        Nat.mul_le_mul_right _ (by omega)
      have h2 : (i + 1) * cfg.blockSize = i * cfg.blockSize + cfg.blockSize :=
        Nat.succ_mul i cfg.blockSize
      omega
  · intro i hi hlast
    rw [splitFileIntoBlocks_get cfg data ofn fid i hi]
    simp only [List.length_take, List.length_drop]
    have hlen := splitFileIntoBlocks_length cfg data ofn fid
    rw [hlen] at hlast
    by_cases hn : data.length = 0
    · have hc0 : (data.length + cfg.blockSize - 1) / cfg.blockSize = 0 := by
        apply Nat.div_eq_of_lt
        omega
      rw [hc0] at hlast
      simp at hlast
      have hi0 : i = 0 := by omega
      subst hi0
      simp [hn]
    · have hb := blockCount_bounds data.length cfg.blockSize hbs (Nat.pos_of_ne_zero hn)
      generalize hcg : (data.length + cfg.blockSize - 1) / cfg.blockSize = c at hb hlast
      have hc1 : 1 ≤ c := by
        rcases Nat.eq_zero_or_pos c with hcz | hcp
        · exfalso
          have hb2 := hb.2
          rw [hcz, Nat.zero_mul] at hb2
          omega
        · exact hcp
      have hic : i = c - 1 := by omega
      have h3 : c * cfg.blockSize = (c - 1) * cfg.blockSize + cfg.blockSize := by
        have h4 : c - 1 + 1 = c := by omega
        calc c * cfg.blockSize = (c - 1 + 1) * cfg.blockSize := by rw [h4]
          _ = (c - 1) * cfg.blockSize + cfg.blockSize := Nat.succ_mul (c - 1) cfg.blockSize
      subst hic
      omega

/-- Witness for C5: splitting the 3-byte file `[1,2,3]` with block size 2
satisfies the round-trip conjunct. -/
theorem split_file_into_blocks_spec_witness :
    0 < (⟨["A"], fun _ => 50, 2, "A"⟩ : Config).blockSize
    ∧ ((splitFileIntoBlocks ⟨["A"], fun _ => 50, 2, "A"⟩ [1, 2, 3] "a.txt" "f").map
        (fun b => b.data)).flatten = [1, 2, 3] :=
  ⟨by decide,
   (split_file_into_blocks_spec ⟨["A"], fun _ => 50, 2, "A"⟩ [1, 2, 3] "a.txt" "f"
      (by decide)).2.2.2.2⟩


/-! ## Claim theorems: reconstruction, failover, dispatch, gossip frame -/

/-- C1 (failing evaluation): uploading the zero-byte file `"empty.txt"` on
the healthy three-peer cluster succeeds, the empty payload is on disk on
the replica (this peer, `Maq1`) and on the primary peer (`Maq3`), and the
file-index row is present — yet `reconstruct_file` returns absent instead
of the empty byte string with the filename, because `_get_block` and the
`get_block` handler test the base-64 payload with Python truthiness and
the zero-byte payload encodes to the falsy `""`. -/
theorem reconstruct_file_zero_byte_file_absent :
    exceptIsError emptyFileUpload = false
    ∧ getBlockLocally (emptyFileCluster "Maq1") ("f1", 0) = some []
    ∧ getBlockLocally (emptyFileCluster "Maq3") ("f1", 0) = some []
    ∧ emptyFileState.fileIndex = [("f1", ⟨"empty.txt", [("f1", 0)], 1, 0⟩)]
    ∧ reconstructFile "Maq1" (emptyFileCluster "Maq1") emptyFileState emptyFileRequest "f1"
        = none :=
  ⟨rfl, rfl, rfl, rfl, rfl⟩

/-- C4 (amended): `_get_block` consults, in order, the local disk (primary
then replica directory), the remote primary unless it is this node (or
unset), the remote replica likewise, each at most once (no retries), and
returns the first NON-EMPTY payload found — Python truthiness skips empty
payloads; it returns absent when no source yields a non-empty payload. -/
theorem get_block_failover_order (selfName : String) (localStore : NodeStore)
    (blocks : List ((String × Nat) × Row))
    (request : String → (String × Nat) → Option (List Nat))
    (blockId : String × Nat) :
    getBlockFailover selfName localStore blocks request blockId
      = getBlockAmendedOrder selfName localStore blocks request blockId := by
  unfold getBlockFailover getBlockAmendedOrder
  simp only [firstNonEmpty]
  by_cases h1 : truthyData (getBlockLocally localStore blockId)
  · rw [if_pos h1, if_pos h1]
  · rw [if_neg h1, if_neg h1]
    cases hrow : alget blocks blockId with
    | none => rfl
    | some row => rfl

/-- C4 counterexample: the zero-byte payload of a block sits on the local
disk (replica directory) — the first source holds a payload — yet
`_get_block` returns absent, refuting "returning the first payload found /
absent only when all three sources miss". -/
theorem get_block_failover_counterexample :
    getBlockFailover "A"
        ⟨fun _ => none, fun k => if k = ("f", 0) then some [] else none⟩
        [(("f", 0), ⟨0, "f", "t.txt", 0, "B", "A"⟩)]
        (fun _ _ => none) ("f", 0) = none
    ∧ getBlockClaimedOrder "A"
        ⟨fun _ => none, fun k => if k = ("f", 0) then some [] else none⟩
        [(("f", 0), ⟨0, "f", "t.txt", 0, "B", "A"⟩)]
        (fun _ _ => none) ("f", 0) = some [] :=
  ⟨rfl, rfl⟩

/-- C9 (failing evaluation): a message of type `"cleanup_orphan_blocks"`
(the broadcast of the orphan sweep, main.py 502-515) matches no branch of
`_process_message`; the receiving peer falls to the unknown-type `else`
and replies with status `"error"` ("Tipo de mensaje desconocido"), not the
promised `"ok"`, whatever the handled branches would reply. -/
theorem cleanup_orphan_blocks_not_handled (handlerStatus : MsgHandler → String) :
    dispatchMessageType "cleanup_orphan_blocks" = MsgHandler.unknownType
    ∧ processMessageStatus handlerStatus "cleanup_orphan_blocks" = "error" :=
  ⟨rfl, rfl⟩

/-- C10: `sync_block_table` changes only the `blocks` mapping of the block
table — the in-memory `node_usage` (and the one it persists) is exactly
the pre-call `node_usage`, and the file index is untouched; usage
accounting is never imported from remote peers by this sync path. -/
theorem sync_block_table_nodeUsage_frame (st : BMState) (remote : BlockTable) :
    (syncBlockTable st remote).table.nodeUsage = st.table.nodeUsage
    ∧ (syncBlockTable st remote).savedTable.nodeUsage = st.table.nodeUsage
    ∧ (syncBlockTable st remote).fileIndex = st.fileIndex
    ∧ (syncBlockTable st remote).savedFileIndex = st.savedFileIndex
    ∧ (syncBlockTable st remote).table.blocks
        = dictUnionFWW st.table.blocks remote.blocks :=
  ⟨rfl, rfl, rfl, rfl, rfl⟩


/-! ## Lemmas about the first-writer-wins union -/

theorem alget_foldl_union {κ : Type u} {ν : Type v} [DecidableEq κ] (k : κ)
    (r : List (κ × ν)) :
    ∀ (acc : List (κ × ν)),
    alget (r.foldl (fun acc kv => if alContains acc kv.1 then acc else acc ++ [kv]) acc) k
      = optFirst (alget acc k) (alget r k) := by
  induction r with
  | nil =>
    intro acc
    cases h : alget acc k <;> simp [alget, optFirst, h]
  | cons kv rest ih =>
    intro acc
    obtain ⟨k1, v1⟩ := kv
    simp only [List.foldl_cons]
    by_cases hc : alContains acc k1
    · rw [if_pos hc, ih acc]
      cases hacc : alget acc k with
      | some v => simp [optFirst]
      | none =>
        have hk : ¬ k1 = k := by
          intro he
          rw [he] at hc
          unfold alContains at hc
          rw [hacc] at hc
          simp at hc
        simp [alget, optFirst, hk]
    · rw [if_neg hc, ih (acc ++ [(k1, v1)]), alget_append]
      cases hacc : alget acc k with
      | some v => simp [optFirst]
      | none =>
        by_cases hk : k1 = k
        · subst hk
          simp [alget, optFirst]
        · simp [alget, optFirst, hk]

theorem alget_dictUnionFWW {κ : Type u} {ν : Type v} [DecidableEq κ]
    (l r : List (κ × ν)) (k : κ) :
    alget (dictUnionFWW l r) k = optFirst (alget l k) (alget r k) :=
  alget_foldl_union k r l

theorem alContains_dictUnionFWW {κ : Type u} {ν : Type v} [DecidableEq κ]
    (l r : List (κ × ν)) (k : κ) :
    alContains (dictUnionFWW l r) k = (alContains l k || alContains r k) := by
  unfold alContains
  rw [alget_dictUnionFWW]
  cases h : alget l k <;> simp [optFirst, h]

theorem foldl_union_noop {κ : Type u} {ν : Type v} [DecidableEq κ] (r : List (κ × ν)) :
    ∀ acc, (∀ kv ∈ r, alContains acc kv.1 = true) →
    r.foldl (fun acc kv => if alContains acc kv.1 then acc else acc ++ [kv]) acc = acc := by
  induction r with
  | nil =>
    intro acc h
    rfl
  | cons kv rest ih =>
    intro acc h
    simp only [List.foldl_cons]
    rw [if_pos (h kv (List.mem_cons_self _ _))]
    exact ih acc (fun kv2 hkv2 => h kv2 (List.mem_cons_of_mem _ hkv2))

theorem dictUnionFWW_idem {κ : Type u} {ν : Type v} [DecidableEq κ] (l r : List (κ × ν)) :
    dictUnionFWW (dictUnionFWW l r) r = dictUnionFWW l r := by
  unfold dictUnionFWW
  apply foldl_union_noop
  intro kv hkv
  have h2 : alContains (dictUnionFWW l r) kv.1 = true := by
    rw [alContains_dictUnionFWW]
    have h3 : alContains r kv.1 = true := by
      unfold alContains
      exact alget_isSome_of_mem r kv.1 kv.2 hkv
    rw [h3, Bool.or_true]
  exact h2

/-- C8: the gossip merges are first-writer-wins unions.  For the block
table and the file index alike: a row already present locally is unchanged
by the merge, a row present only in the remote copy is added with its
remote value, no key is removed (the merged key set is the union), the
merge is idempotent, and merging in either direction yields the same
combined key set. -/
theorem sync_tables_union_merge (st : BMState) (remote : BlockTable)
    (remoteIndex : List (String × FileInfo)) :
    (∀ k, alget (syncBlockTable st remote).table.blocks k
        = optFirst (alget st.table.blocks k) (alget remote.blocks k))
    ∧ (∀ k, alContains (syncBlockTable st remote).table.blocks k
        = (alContains st.table.blocks k || alContains remote.blocks k))
    ∧ (syncBlockTable (syncBlockTable st remote) remote).table.blocks
        = (syncBlockTable st remote).table.blocks
    ∧ (∀ k, alContains (dictUnionFWW st.table.blocks remote.blocks) k
        = alContains (dictUnionFWW remote.blocks st.table.blocks) k)
    ∧ (∀ k, alget (syncFileIndex st remoteIndex).fileIndex k
        = optFirst (alget st.fileIndex k) (alget remoteIndex k))
    ∧ (∀ k, alContains (syncFileIndex st remoteIndex).fileIndex k
        = (alContains st.fileIndex k || alContains remoteIndex k))
    ∧ (syncFileIndex (syncFileIndex st remoteIndex) remoteIndex).fileIndex
        = (syncFileIndex st remoteIndex).fileIndex
    ∧ (∀ k, alContains (dictUnionFWW st.fileIndex remoteIndex) k
        = alContains (dictUnionFWW remoteIndex st.fileIndex) k) := by
  have hbt : (syncBlockTable st remote).table.blocks
      = dictUnionFWW st.table.blocks remote.blocks := rfl
  have hbt2 : (syncBlockTable (syncBlockTable st remote) remote).table.blocks
      = dictUnionFWW (dictUnionFWW st.table.blocks remote.blocks) remote.blocks := rfl
  have hfi : (syncFileIndex st remoteIndex).fileIndex
      = dictUnionFWW st.fileIndex remoteIndex := rfl
  have hfi2 : (syncFileIndex (syncFileIndex st remoteIndex) remoteIndex).fileIndex
      = dictUnionFWW (dictUnionFWW st.fileIndex remoteIndex) remoteIndex := rfl
  refine ⟨fun k => ?_, fun k => ?_, ?_, fun k => ?_, fun k => ?_, fun k => ?_, ?_,
    fun k => ?_⟩
  · rw [hbt]
    exact alget_dictUnionFWW _ _ k
  · rw [hbt]
    exact alContains_dictUnionFWW _ _ k
  · rw [hbt2, hbt]
    exact dictUnionFWW_idem _ _
  · rw [alContains_dictUnionFWW, alContains_dictUnionFWW, Bool.or_comm]
  · rw [hfi]
    exact alget_dictUnionFWW _ _ k
  · rw [hfi]
    exact alContains_dictUnionFWW _ _ k
  · rw [hfi2, hfi]
    exact dictUnionFWW_idem _ _
  · rw [alContains_dictUnionFWW, alContains_dictUnionFWW, Bool.or_comm]


/-! ## Lemmas about `delete_file` -/

theorem deleteFileStep_blocks (selfName : String) (hasNM : Bool)
    (responses : String → (String × Nat) → Bool)
    (acc : BlockTable × NodeStore × List (String × (String × Nat)))
    (blockId : String × Nat) :
    (deleteFileStep selfName hasNM responses acc blockId).1.blocks
      = alerase acc.1.blocks blockId := rfl

theorem deleteFileStep_usage (selfName : String) (hasNM : Bool)
    (responses : String → (String × Nat) → Bool)
    (acc : BlockTable × NodeStore × List (String × (String × Nat)))
    (blockId : String × Nat) :
    (deleteFileStep selfName hasNM responses acc blockId).1.nodeUsage
      = decrementUsage
          (decrementUsage acc.1.nodeUsage
            ((alget acc.1.blocks blockId).map (fun r => r.primaryNode)))
          ((alget acc.1.blocks blockId).map (fun r => r.replicaNode)) := rfl

theorem deleteFileStep_events (selfName : String) (hasNM : Bool)
    (responses : String → (String × Nat) → Bool)
    (acc : BlockTable × NodeStore × List (String × (String × Nat)))
    (blockId : String × Nat) :
    (deleteFileStep selfName hasNM responses acc blockId).2.2
      = acc.2.2
        ++ deleteRoleRemote selfName hasNM responses
            ((alget acc.1.blocks blockId).map (fun r => r.primaryNode)) blockId
        ++ deleteRoleRemote selfName hasNM responses
            ((alget acc.1.blocks blockId).map (fun r => r.replicaNode)) blockId := rfl

theorem deleteFileStep_store (selfName : String) (hasNM : Bool)
    (responses : String → (String × Nat) → Bool)
    (acc : BlockTable × NodeStore × List (String × (String × Nat)))
    (blockId : String × Nat) :
    (deleteFileStep selfName hasNM responses acc blockId).2.1
      = deleteRoleLocal selfName
          ((alget acc.1.blocks blockId).map (fun r => r.replicaNode))
          (deleteRoleLocal selfName
            ((alget acc.1.blocks blockId).map (fun r => r.primaryNode))
            acc.2.1 blockId)
          blockId := rfl

theorem decrementUsage_lookup (u : List (String × Nat)) (p : String) (hp : p ≠ "")
    (n : String) :
    alget (decrementUsage u (some p)) n
      = (alget u n).map (fun v => v - (if p = n then 1 else 0)) := by
  simp only [decrementUsage]
  by_cases hc : alContains u p
  · rw [if_pos ⟨hp, hc⟩, alget_alset]
    by_cases hn : n = p
    · subst hn
      unfold alContains at hc
      cases hu : alget u n with
      | none =>
        rw [hu] at hc
        simp at hc
      | some v => simp [hu]
    · have hn2 : ¬ p = n := fun h => hn h.symm
      rw [if_neg hn, if_neg hn2]
      cases hu : alget u n <;> simp
  · rw [if_neg (fun h => hc h.2)]
    by_cases hn : p = n
    · subst hn
      unfold alContains at hc
      cases hu : alget u p with
      | none => rfl
      | some v =>
        rw [hu] at hc
        simp at hc
    · rw [if_neg hn]
      cases hu : alget u n <;> simp

theorem deleteRoleLocal_none (selfName : String) (role : Option String) (ns : NodeStore)
    (blockId id : String × Nat)
    (hp : ns.primaryDir id = none) (hr : ns.replicaDir id = none) :
    (deleteRoleLocal selfName role ns blockId).primaryDir id = none
    ∧ (deleteRoleLocal selfName role ns blockId).replicaDir id = none := by
  cases role with
  | none => exact ⟨hp, hr⟩
  | some x =>
    by_cases hx : x = selfName
    · simp only [deleteRoleLocal, if_pos hx, deleteBlockLocallyStore]
      constructor <;> split <;> simp [hp, hr]
    · simp only [deleteRoleLocal, if_neg hx]
      exact ⟨hp, hr⟩

theorem deleteRoleLocal_self_hit (selfName : String) (ns : NodeStore)
    (blockId : String × Nat) :
    (deleteRoleLocal selfName (some selfName) ns blockId).primaryDir blockId = none
    ∧ (deleteRoleLocal selfName (some selfName) ns blockId).replicaDir blockId = none := by
  simp [deleteRoleLocal, deleteBlockLocallyStore]

theorem chargeCount_congr (b1 b2 : List ((String × Nat) × Row))
    (ids : List (String × Nat)) (n : String)
    (h : ∀ id ∈ ids, alget b1 id = alget b2 id) :
    chargeCount b1 ids n = chargeCount b2 ids n := by
  unfold chargeCount
  induction ids with
  | nil => rfl
  | cons id rest ih =>
    simp only [List.map_cons, List.sum_cons]
    rw [h id (List.mem_cons_self _ _), ih (fun id2 h2 => h id2 (List.mem_cons_of_mem _ h2))]

theorem specRemoteDeletes_congr (selfName : String) (b1 b2 : List ((String × Nat) × Row))
    (ids : List (String × Nat))
    (h : ∀ id ∈ ids, alget b1 id = alget b2 id) :
    specRemoteDeletes selfName b1 ids = specRemoteDeletes selfName b2 ids := by
  unfold specRemoteDeletes
  induction ids with
  | nil => rfl
  | cons id rest ih =>
    simp only [List.map_cons, List.flatten_cons]
    rw [h id (List.mem_cons_self _ _), ih (fun id2 h2 => h id2 (List.mem_cons_of_mem _ h2))]


theorem deleteFileLoop_blocks (selfName : String) (hasNM : Bool)
    (responses : String → (String × Nat) → Bool) (ids : List (String × Nat)) :
    ∀ (acc : BlockTable × NodeStore × List (String × (String × Nat))) (id2 : String × Nat),
    alget (deleteFileLoop selfName hasNM responses ids acc).1.blocks id2
      = if id2 ∈ ids then none else alget acc.1.blocks id2 := by
  induction ids with
  | nil =>
    intro acc id2
    simp [deleteFileLoop]
  | cons id rest ih =>
    intro acc id2
    simp only [deleteFileLoop]
    rw [ih]
    by_cases h2 : id2 ∈ rest
    · rw [if_pos h2, if_pos (List.mem_cons_of_mem _ h2)]
    · rw [if_neg h2, deleteFileStep_blocks, alget_alerase]
      by_cases h3 : id2 = id
      · rw [if_pos h3, if_pos (by rw [h3]; exact List.mem_cons_self _ _)]
      · rw [if_neg h3, if_neg ?hne]
        case hne =>
          intro hmem
          rcases List.mem_cons.mp hmem with h4 | h4
          · exact h3 h4
          · exact h2 h4

theorem deleteFileLoop_usage (selfName : String) (hasNM : Bool)
    (responses : String → (String × Nat) → Bool) (ids : List (String × Nat)) :
    ∀ (acc : BlockTable × NodeStore × List (String × (String × Nat))),
    ids.Nodup →
    (∀ id ∈ ids, ∃ row, alget acc.1.blocks id = some row
        ∧ row.primaryNode ≠ "" ∧ row.replicaNode ≠ "") →
    ∀ (n : String),
    alget (deleteFileLoop selfName hasNM responses ids acc).1.nodeUsage n
      = (alget acc.1.nodeUsage n).map (fun v => v - chargeCount acc.1.blocks ids n) := by
  induction ids with
  | nil =>
    intro acc hnd hrows n
    simp only [deleteFileLoop]
    cases h : alget acc.1.nodeUsage n <;> simp [chargeCount]
  | cons id rest ih =>
    intro acc hnd hrows n
    simp only [deleteFileLoop]
    obtain ⟨row, hrow, hpne, hrne⟩ := hrows id (List.mem_cons_self _ _)
    have hnd2 := List.nodup_cons.mp hnd
    have hpres : ∀ id2 ∈ rest,
        alget (alerase acc.1.blocks id) id2 = alget acc.1.blocks id2 := by
      intro id2 h2
      rw [alget_alerase, if_neg (fun (he : id2 = id) => hnd2.1 (he ▸ h2))]
    have hrows2 : ∀ id2 ∈ rest, ∃ row2,
        alget (deleteFileStep selfName hasNM responses acc id).1.blocks id2 = some row2
        ∧ row2.primaryNode ≠ "" ∧ row2.replicaNode ≠ "" := by
      intro id2 h2
      obtain ⟨row2, hr2, hp2, hq2⟩ := hrows id2 (List.mem_cons_of_mem _ h2)
      refine ⟨row2, ?_, hp2, hq2⟩
      rw [deleteFileStep_blocks, hpres id2 h2]
      exact hr2
    rw [ih _ hnd2.2 hrows2 n]
    have hu : (deleteFileStep selfName hasNM responses acc id).1.nodeUsage
        = decrementUsage (decrementUsage acc.1.nodeUsage (some row.primaryNode))
            (some row.replicaNode) := by
      rw [deleteFileStep_usage, hrow]
      rfl
    rw [hu, decrementUsage_lookup _ _ hrne, decrementUsage_lookup _ _ hpne]
    have hcc : chargeCount (deleteFileStep selfName hasNM responses acc id).1.blocks rest n
        = chargeCount acc.1.blocks rest n := by
      rw [deleteFileStep_blocks]
      exact chargeCount_congr _ _ _ _ hpres
    rw [hcc]
    cases hun : alget acc.1.nodeUsage n with
    | none => rfl
    | some v =>
      simp only [Option.map_some']
      congr 1
      unfold chargeCount
      simp only [List.map_cons, List.sum_cons, hrow]
      by_cases hpn : row.primaryNode = n <;> by_cases hrn : row.replicaNode = n <;>
        simp [hpn, hrn, chargeCount] <;> omega

theorem deleteFileLoop_events (selfName : String)
    (responses : String → (String × Nat) → Bool) (ids : List (String × Nat)) :
    ∀ (acc : BlockTable × NodeStore × List (String × (String × Nat))),
    ids.Nodup →
    (∀ id ∈ ids, ∃ row, alget acc.1.blocks id = some row
        ∧ row.primaryNode ≠ "" ∧ row.replicaNode ≠ "") →
    (deleteFileLoop selfName true responses ids acc).2.2
      = acc.2.2 ++ specRemoteDeletes selfName acc.1.blocks ids := by
  induction ids with
  | nil =>
    intro acc hnd hrows
    simp [deleteFileLoop, specRemoteDeletes]
  | cons id rest ih =>
    intro acc hnd hrows
    simp only [deleteFileLoop]
    obtain ⟨row, hrow, hpne, hrne⟩ := hrows id (List.mem_cons_self _ _)
    have hnd2 := List.nodup_cons.mp hnd
    have hpres : ∀ id2 ∈ rest,
        alget (alerase acc.1.blocks id) id2 = alget acc.1.blocks id2 := by
      intro id2 h2
      rw [alget_alerase, if_neg (fun (he : id2 = id) => hnd2.1 (he ▸ h2))]
    have hrows2 : ∀ id2 ∈ rest, ∃ row2,
        alget (deleteFileStep selfName true responses acc id).1.blocks id2 = some row2
        ∧ row2.primaryNode ≠ "" ∧ row2.replicaNode ≠ "" := by
      intro id2 h2
      obtain ⟨row2, hr2, hp2, hq2⟩ := hrows id2 (List.mem_cons_of_mem _ h2)
      refine ⟨row2, ?_, hp2, hq2⟩
      rw [deleteFileStep_blocks, hpres id2 h2]
      exact hr2
    rw [ih _ hnd2.2 hrows2]
    have hspec : specRemoteDeletes selfName
        (deleteFileStep selfName true responses acc id).1.blocks rest
        = specRemoteDeletes selfName acc.1.blocks rest := by
      rw [deleteFileStep_blocks]
      exact specRemoteDeletes_congr _ _ _ _ hpres
    rw [hspec, deleteFileStep_events]
    have hheadP : deleteRoleRemote selfName true responses
        ((alget acc.1.blocks id).map (fun r => r.primaryNode)) id
        = (if row.primaryNode = selfName then [] else [(row.primaryNode, id)]) := by
      rw [hrow]
      simp only [Option.map_some']
      unfold deleteRoleRemote
      by_cases hps : row.primaryNode = selfName
      · simp [hps]
      · simp [hps, hpne]
    have hheadR : deleteRoleRemote selfName true responses
        ((alget acc.1.blocks id).map (fun r => r.replicaNode)) id
        = (if row.replicaNode = selfName then [] else [(row.replicaNode, id)]) := by
      rw [hrow]
      simp only [Option.map_some']
      unfold deleteRoleRemote
      by_cases hps : row.replicaNode = selfName
      · simp [hps]
      · simp [hps, hrne]
    rw [hheadP, hheadR]
    unfold specRemoteDeletes
    simp only [List.map_cons, List.flatten_cons, hrow]
    simp [List.append_assoc]

theorem deleteFileLoop_store_none (selfName : String) (hasNM : Bool)
    (responses : String → (String × Nat) → Bool) (ids : List (String × Nat)) :
    ∀ (acc : BlockTable × NodeStore × List (String × (String × Nat))) (id : String × Nat),
    acc.2.1.primaryDir id = none → acc.2.1.replicaDir id = none →
    ((deleteFileLoop selfName hasNM responses ids acc).2.1.primaryDir id = none
     ∧ (deleteFileLoop selfName hasNM responses ids acc).2.1.replicaDir id = none) := by
  induction ids with
  | nil =>
    intro acc id hp hr
    exact ⟨hp, hr⟩
  | cons id0 rest ih =>
    intro acc id hp hr
    simp only [deleteFileLoop]
    have hinner := deleteRoleLocal_none selfName
      ((alget acc.1.blocks id0).map (fun r => r.primaryNode)) acc.2.1 id0 id hp hr
    have houter := deleteRoleLocal_none selfName
      ((alget acc.1.blocks id0).map (fun r => r.replicaNode)) _ id0 id hinner.1 hinner.2
    apply ih
    · rw [deleteFileStep_store]
      exact houter.1
    · rw [deleteFileStep_store]
      exact houter.2

theorem deleteFileLoop_store_deleted (selfName : String) (hasNM : Bool)
    (responses : String → (String × Nat) → Bool) (ids : List (String × Nat)) :
    ∀ (acc : BlockTable × NodeStore × List (String × (String × Nat)))
      (id : String × Nat) (row : Row),
    ids.Nodup → id ∈ ids → alget acc.1.blocks id = some row →
    (row.primaryNode = selfName ∨ row.replicaNode = selfName) →
    ((deleteFileLoop selfName hasNM responses ids acc).2.1.primaryDir id = none
     ∧ (deleteFileLoop selfName hasNM responses ids acc).2.1.replicaDir id = none) := by
  induction ids with
  | nil =>
    intro acc id row hnd hmem
    cases hmem
  | cons id0 rest ih =>
    intro acc id row hnd hmem hrow hrole
    simp only [deleteFileLoop]
    have hnd2 := List.nodup_cons.mp hnd
    rcases List.mem_cons.mp hmem with h1 | h1
    · subst h1
      apply deleteFileLoop_store_none
      · rw [deleteFileStep_store, hrow]
        simp only [Option.map_some']
        rcases hrole with h2 | h2
        · rw [h2]
          exact (deleteRoleLocal_none _ _ _ _ _ (deleteRoleLocal_self_hit _ _ _).1
            (deleteRoleLocal_self_hit _ _ _).2).1
        · rw [h2]
          exact (deleteRoleLocal_self_hit _ _ _).1
      · rw [deleteFileStep_store, hrow]
        simp only [Option.map_some']
        rcases hrole with h2 | h2
        · rw [h2]
          exact (deleteRoleLocal_none _ _ _ _ _ (deleteRoleLocal_self_hit _ _ _).1
            (deleteRoleLocal_self_hit _ _ _).2).2
        · rw [h2]
          exact (deleteRoleLocal_self_hit _ _ _).2
    · refine ih _ id row hnd2.2 h1 ?_ hrole
      rw [deleteFileStep_blocks, alget_alerase, if_neg (fun (he : id = id0) => hnd2.1 (he ▸ h1))]
      exact hrow


/-- C7: for every `file_id` present in the file index — with the
well-formed rows upload produces: each block of the file has a row naming
non-empty primary and replica peers, and the block-id list has no
duplicates — `delete_file` issues a delete for every block to its primary
and to its replica (locally, clearing both directories, when that role is
this node; remotely otherwise), decrements each charged peer's usage by
one per block with a floor of zero, removes every block row and the
file-index row while leaving all other rows untouched, persists both
tables, and returns true — and the outcome is the same for every possible
`responses` of the remote deletes, which the code discards.  For a
`file_id` absent from the index it returns false and changes nothing. -/
theorem delete_file_spec (selfName : String)
    (responses : String → (String × Nat) → Bool)
    (st : BMState) (localStore : NodeStore) (fileId : String) (info : FileInfo)
    (hfi : alget st.fileIndex fileId = some info)
    (hnd : info.blockIds.Nodup)
    (hrows : ∀ id ∈ info.blockIds, ∃ row, alget st.table.blocks id = some row
        ∧ row.primaryNode ≠ "" ∧ row.replicaNode ≠ "") :
    (deleteFile selfName true responses st localStore fileId).result = true
    ∧ (deleteFile selfName true responses st localStore fileId).remoteDeletes
        = specRemoteDeletes selfName st.table.blocks info.blockIds
    ∧ (∀ id ∈ info.blockIds,
        alget (deleteFile selfName true responses st localStore fileId).state.table.blocks
          id = none)
    ∧ (∀ id, id ∉ info.blockIds →
        alget (deleteFile selfName true responses st localStore fileId).state.table.blocks
          id = alget st.table.blocks id)
    ∧ (∀ n,
        alget (deleteFile selfName true responses st localStore fileId).state.table.nodeUsage
          n = (alget st.table.nodeUsage n).map
              (fun v => v - chargeCount st.table.blocks info.blockIds n))
    ∧ (∀ id ∈ info.blockIds, ∀ row, alget st.table.blocks id = some row →
        (row.primaryNode = selfName ∨ row.replicaNode = selfName) →
        (deleteFile selfName true responses st localStore fileId).localStore.primaryDir
          id = none
        ∧ (deleteFile selfName true responses st localStore fileId).localStore.replicaDir
          id = none)
    ∧ alget (deleteFile selfName true responses st localStore fileId).state.fileIndex
        fileId = none
    ∧ (∀ fid2, fid2 ≠ fileId →
        alget (deleteFile selfName true responses st localStore fileId).state.fileIndex
          fid2 = alget st.fileIndex fid2)
    ∧ (deleteFile selfName true responses st localStore fileId).state.savedTable
        = (deleteFile selfName true responses st localStore fileId).state.table
    ∧ (deleteFile selfName true responses st localStore fileId).state.savedFileIndex
        = (deleteFile selfName true responses st localStore fileId).state.fileIndex
    ∧ (∀ fid2, alget st.fileIndex fid2 = none →
        deleteFile selfName true responses st localStore fid2
          = ⟨false, st, localStore, []⟩) := by
  have hd : deleteFile selfName true responses st localStore fileId
      = ⟨true,
         { table := (deleteFileLoop selfName true responses info.blockIds
             (st.table, localStore, [])).1,
           savedTable := (deleteFileLoop selfName true responses info.blockIds
             (st.table, localStore, [])).1,
           fileIndex := alerase st.fileIndex fileId,
           savedFileIndex := alerase st.fileIndex fileId },
         (deleteFileLoop selfName true responses info.blockIds
           (st.table, localStore, [])).2.1,
         (deleteFileLoop selfName true responses info.blockIds
           (st.table, localStore, [])).2.2⟩ := by
    unfold deleteFile
    rw [hfi]
  rw [hd]
  refine ⟨rfl, ?_, ?_, ?_, ?_, ?_, ?_, ?_, rfl, rfl, ?_⟩
  · simpa using deleteFileLoop_events selfName responses info.blockIds
      (st.table, localStore, []) hnd hrows
  · intro id hid
    rw [deleteFileLoop_blocks, if_pos hid]
  · intro id hid
    rw [deleteFileLoop_blocks, if_neg hid]
  · intro n
    exact deleteFileLoop_usage selfName true responses info.blockIds
      (st.table, localStore, []) hnd hrows n
  · intro id hid row hrow hrole
    exact deleteFileLoop_store_deleted selfName true responses info.blockIds
      (st.table, localStore, []) id row hnd hid hrow hrole
  · rw [alget_alerase]
    simp
  · intro fid2 h2
    rw [alget_alerase, if_neg h2]
  · intro fid2 h2
    unfold deleteFile
    rw [h2]

/-- Witness for C7: deleting file `"f"` (one block, primary this peer "A",
replica "B") with every remote delete failing still returns true, sends
the one replica delete, and clears the local block. -/
theorem delete_file_spec_witness :
    alget c7State.fileIndex "f" = some c7Info
    ∧ (deleteFile "A" true (fun _ _ => false) c7State c7Store "f").result = true
    ∧ (deleteFile "A" true (fun _ _ => false) c7State c7Store "f").remoteDeletes
        = specRemoteDeletes "A" c7State.table.blocks c7Info.blockIds :=
  ⟨rfl,
   (delete_file_spec "A" (fun _ _ => false) c7State c7Store "f" c7Info rfl
      (by decide)
      (by
        intro id hid
        have hid2 : id = ("f", 0) := by simpa [c7Info] using hid
        subst hid2
        exact ⟨⟨0, "f", "t.txt", 3, "A", "B"⟩, rfl, by decide, by decide⟩)).1,
   (delete_file_spec "A" (fun _ _ => false) c7State c7Store "f" c7Info rfl
      (by decide)
      (by
        intro id hid
        have hid2 : id = ("f", 0) := by simpa [c7Info] using hid
        subst hid2
        exact ⟨⟨0, "f", "t.txt", 3, "A", "B"⟩, rfl, by decide, by decide⟩)).2.1⟩

end DistFS
